import Mathlib

/-!
Shallow embedding of `app.py` (TwitterAutomationApp): a single-table tweet
scheduler.  The embedding follows the source closely:

* the sqlite table `scheduled_tweets` becomes `DB` (a list of `Post` rows in
  insertion order plus the next AUTOINCREMENT id);
* instants (`scheduled_utc`, `posted_at`, `now`) are modelled as `Int` seconds
  since the Unix epoch; the ISO string round-trips in the source preserve the
  instant, so the embedding stores the instant directly;
* `post_tweet_job` (the Delivery Executor) takes the outcome of the external
  `api.update_status` call as an explicit `PublishResult` argument and the
  current UTC time as `now`;
* APScheduler's job table becomes an association list from record id to the
  armed fire time; `add_job` with `replace_existing=True` is modelled by
  removing any entry with the same id before appending the new one.
-/

set_option autoImplicit false

namespace TwitterApp

/-- Lifecycle states stored in the `status` column of `scheduled_tweets`. -/
inductive Status where
  | scheduled
  | posted
  | failed
  | cancelled
  deriving DecidableEq, Repr

/-- One row of the `scheduled_tweets` table. -/
structure Post where
  id : Nat
  text : String
  scheduled_utc : Int
  status : Status
  posted_at : Option Int
  twitter_id : Option String
  error : Option String
  deriving DecidableEq, Repr

/-- The sqlite database: rows in insertion order, plus the next
AUTOINCREMENT primary key. -/
structure DB where
  rows : List Post
  nextId : Nat
  deriving DecidableEq, Repr

/-- `SELECT * FROM scheduled_tweets WHERE id = ?` followed by `fetchone()`:
the first row with the given id, if any. -/
def getById (db : DB) (tid : Nat) : Option Post :=
  db.rows.find? (fun r => r.id = tid)

/-- `UPDATE scheduled_tweets SET ... WHERE id = ?`: apply `f` to every row
whose id matches (sqlite updates all matching rows; with a primary key there
is at most one). -/
def updateRow (db : DB) (tid : Nat) (f : Post → Post) : DB :=
  { db with rows := db.rows.map (fun r => if r.id = tid then f r else r) }

/-- Outcome of the external `api.update_status(status=text)` call: either a
provider-assigned id string or an exception message. -/
inductive PublishResult where
  | ok (twitter_id : String)
  | err (msg : String)
  deriving DecidableEq, Repr

/-- The success write of `post_tweet_job`:
`UPDATE scheduled_tweets SET status='posted', posted_at=?, twitter_id=?`. -/
def markPosted (now : Int) (tid : String) (r : Post) : Post :=
  { r with status := Status.posted, posted_at := some now,
           twitter_id := some tid }

/-- The failure write of `post_tweet_job`:
`UPDATE scheduled_tweets SET status='failed', posted_at=?, error=?`. -/
def markFailed (now : Int) (msg : String) (r : Post) : Post :=
  { r with status := Status.failed, posted_at := some now,
           error := some msg }

/-- `post_tweet_job(scheduled_id)` from `app.py`: re-read the row; no-op when
absent or when `status != 'scheduled'`; otherwise attempt the publish call and
write back either the success row (`status='posted'`, `posted_at`,
`twitter_id`) or the failure row (`status='failed'`, `posted_at`, `error`).
The publish outcome and the current UTC instant are explicit arguments. -/
def post_tweet_job (db : DB) (scheduled_id : Nat) (pub : PublishResult)
    (now : Int) : DB :=
  match getById db scheduled_id with
  | none => db
  | some row =>
    if row.status ≠ Status.scheduled then db
    else
      match pub with
      | PublishResult.ok tid => updateRow db scheduled_id (markPosted now tid)
      | PublishResult.err m => updateRow db scheduled_id (markFailed now m)

/-! ### Scheduler: APScheduler job table -/

/-- The scheduler's in-memory state: one `(record id, fire time)` entry per
armed one-shot job, in arming order. -/
abbrev Timers := List (Nat × Int)

/-- The armed fire time for a record id, if a job for it exists
(`scheduler.get_job`, for specification purposes). -/
def lookupTimer (ts : Timers) (tid : Nat) : Option Int :=
  (List.find? (fun p => p.1 = tid) ts).map Prod.snd

/-- `schedule_job(scheduled_id, run_time_utc)` from `app.py`:
`scheduler.add_job(..., run_date=run_time_utc, id=f"tweet-:id",
replace_existing=True)` — any existing job with the same id is replaced, and
the job is armed at exactly `run_time_utc`. -/
def schedule_job (ts : Timers) (scheduled_id : Nat) (run_time_utc : Int) :
    Timers :=
  (List.filter (fun p => p.1 ≠ scheduled_id) ts) ++ [(scheduled_id, run_time_utc)]

/-- `unschedule_job(scheduled_id)` from `app.py`: `scheduler.remove_job`
wrapped in `try/except Exception: pass`, so removing a missing job is a
no-op rather than an error. -/
def unschedule_job (ts : Timers) (scheduled_id : Nat) : Timers :=
  List.filter (fun p => p.1 ≠ scheduled_id) ts

/-! ### Whole-application state and the Flask routes -/

/-- Process state seen by the routes: the sqlite database plus the
scheduler's job table. -/
structure AppState where
  db : DB
  timers : Timers
  deriving DecidableEq

/-- Outcome of the `/cancel/<tid>` route, distinguished by which flash
message the user sees. -/
inductive CancelResult where
  | notFound
  | notCancellable
  | ok
  deriving DecidableEq, Repr

/-- The cancel write: `UPDATE scheduled_tweets SET status='cancelled'
WHERE id = ?` — only the status column changes. -/
def markCancelled (r : Post) : Post :=
  { r with status := Status.cancelled }

/-- `cancel(tid)` from `app.py`: not-found and non-`scheduled` rows are
rejected without mutation; a `scheduled` row is set to `cancelled` and its
job removed. -/
def cancel (st : AppState) (tid : Nat) : CancelResult × AppState :=
  match getById st.db tid with
  | none => (CancelResult.notFound, st)
  | some row =>
    if row.status ≠ Status.scheduled then (CancelResult.notCancellable, st)
    else
      (CancelResult.ok,
       { db := updateRow st.db tid markCancelled,
         timers := unschedule_job st.timers tid })

/-- `SELECT * FROM scheduled_tweets WHERE status = 'scheduled' ORDER BY
scheduled_utc`: the pending rows, ascending by `scheduled_utc`. -/
def pendingRows (db : DB) : List Post :=
  List.insertionSort (fun a b : Post => a.scheduled_utc ≤ b.scheduled_utc)
    (db.rows.filter (fun r => r.status = Status.scheduled))

/-- The run time `load_and_schedule_all` picks for a pending row:
`scheduled_time if scheduled_time > now else now + timedelta(seconds=5)`. -/
def fireTime (now scheduled_time : Int) : Int :=
  if now < scheduled_time then scheduled_time else now + 5

/-- `load_and_schedule_all()` from `app.py`: select the rows with
`status = 'scheduled'` ordered by `scheduled_utc` ascending and arm a job for
each at its `fireTime`. -/
def load_and_schedule_all (st : AppState) (now : Int) : AppState :=
  { st with
    timers := (pendingRows st.db).foldl
      (fun ts r => schedule_job ts r.id (fireTime now r.scheduled_utc))
      st.timers }

/-! ### Time conversion: `datetime.fromisoformat` and the offset arithmetic

The source stores instants as ISO strings and converts with
`datetime.fromisoformat`; the embedding parses the browser's
`datetime-local` format (`YYYY-MM-DD`, optionally a separator character and
`HH:MM` or `HH:MM:SS`, the forms the route receives) and yields the instant
as seconds since the Unix epoch, so that `timedelta` arithmetic is plain
`Int` arithmetic. -/

/-- Value of an ASCII digit character, `none` otherwise. -/
def digit? (c : Char) : Option Nat :=
  if '0' ≤ c ∧ c ≤ '9' then some (c.toNat - Char.toNat '0') else none

/-- Two-digit decimal field. -/
def num2? (a b : Char) : Option Nat := do
  let x ← digit? a
  let y ← digit? b
  pure (10 * x + y)

/-- Four-digit decimal field. -/
def num4? (a b c d : Char) : Option Nat := do
  let x ← num2? a b
  let y ← num2? c d
  pure (100 * x + y)

/-- Gregorian leap-year test, as in Python's `calendar.isleap`. -/
def isLeap (y : Nat) : Bool :=
  y % 4 = 0 && (y % 100 ≠ 0 || y % 400 = 0)

/-- Length of a month, used by `datetime`'s day-of-month validation. -/
def daysInMonth (y m : Nat) : Nat :=
  if m = 2 then (if isLeap y then 29 else 28)
  else if m = 4 ∨ m = 6 ∨ m = 9 ∨ m = 11 then 30
  else 31

/-- Days from 1970-01-01 to the civil date `y-m-d` (Howard Hinnant's
`days_from_civil`; exact for the proleptic Gregorian calendar used by
`datetime`). -/
def daysFromCivil (y m d : Int) : Int :=
  let y2 := if m ≤ 2 then y - 1 else y
  let era := (if 0 ≤ y2 then y2 else y2 - 399) / 400
  let yoe := y2 - era * 400
  let doy := (153 * (if 2 < m then m - 3 else m + 9) + 2) / 5 + d - 1
  let doe := yoe * 365 + yoe / 4 - yoe / 100 + doy
  era * 146097 + doe - 719468

/-- Seconds since the Unix epoch of the naive datetime
`y-mo-d h:mi:s`. -/
def civilToEpochSecs (y mo d h mi s : Nat) : Int :=
  daysFromCivil (y : Int) (mo : Int) (d : Int) * 86400
    + ((h * 3600 + mi * 60 + s : Nat) : Int)

/-- Time-of-day part accepted after the separator: `HH:MM` or `HH:MM:SS`,
with `datetime`'s range checks. -/
def parseHMS? : List Char → Option (Nat × Nat × Nat)
  | [h1, h2, ':', m1, m2] => do
      let h ← num2? h1 h2
      let mi ← num2? m1 m2
      if h ≤ 23 ∧ mi ≤ 59 then pure (h, mi, 0) else none
  | [h1, h2, ':', m1, m2, ':', s1, s2] => do
      let h ← num2? h1 h2
      let mi ← num2? m1 m2
      let s ← num2? s1 s2
      if h ≤ 23 ∧ mi ≤ 59 ∧ s ≤ 59 then pure (h, mi, s) else none
  | _ => none

/-- `datetime.fromisoformat` on the `datetime-local` forms the `/schedule`
route receives: a `YYYY-MM-DD` date, optionally followed by one separator
character and a time of day, validated exactly as `datetime` validates its
fields (year at least 1, month 1–12, day within the month, hour/minute/second
in range).  Returns the instant of the naive reading as epoch seconds, or
`none` on a parse failure (`ValueError` in the source). -/
def fromisoformat (s : String) : Option Int :=
  match s.data with
  | y1 :: y2 :: y3 :: y4 :: '-' :: m1 :: m2 :: '-' :: d1 :: d2 :: rest => do
      let y ← num4? y1 y2 y3 y4
      let mo ← num2? m1 m2
      let d ← num2? d1 d2
      if 1 ≤ y ∧ 1 ≤ mo ∧ mo ≤ 12 ∧ 1 ≤ d ∧ d ≤ daysInMonth y mo then
        match rest with
        | [] => pure (civilToEpochSecs y mo d 0 0 0)
        | _sep :: timecs => do
            let t ← parseHMS? timecs
            pure (civilToEpochSecs y mo d t.1 t.2.1 t.2.2)
      else none
  | _ => none

/-- The one timezone the application ever attaches: `timezone.utc`. -/
inductive Tz where
  | utc
  deriving DecidableEq, Repr

/-- A `datetime` value as the route builds it: the naive wall-clock reading
(as epoch seconds of that reading) together with its `tzinfo`. -/
structure AwareDT where
  seconds : Int
  tzinfo : Option Tz
  deriving DecidableEq, Repr

/-- Lines 176–186 of `app.py`: parse the naive local string, apply
`+ timedelta(minutes=-tz_offset_min)`, and attach `tzinfo=timezone.utc`.
So UTC = local − offset, and the result is always tagged UTC. -/
def to_utc (local_dt : String) (tz_offset_min : Int) : Option AwareDT :=
  (fromisoformat local_dt).map
    (fun dt_local => { seconds := dt_local - tz_offset_min * 60,
                       tzinfo := some Tz.utc })

/-! ### The `/schedule` route -/

/-- Python's `str.strip()`: drop whitespace from both ends. -/
def pyStrip (s : String) : String :=
  String.mk
    (((s.data.dropWhile Char.isWhitespace).reverse.dropWhile
        Char.isWhitespace).reverse)

/-- Outcome of the `/schedule` route, distinguished by the flash message the
user sees: a danger flash (validation failure) or the success flash together
with the new row id. -/
inductive ScheduleResult where
  | validationError (msg : String)
  | created (tid : Nat)
  deriving DecidableEq, Repr

/-- `schedule()` from `app.py`, after the `tz_offset_min` field has been
converted by `int(...)`.  A defect in the source: lines 190–194
(`safe_time = ...` and the `INSERT`) are dedented to module level, and line
197 (`db.commit()`) is then an unexpected indent, so `app.py` as written
raises `IndentationError` at parse time and cannot run — as written the
program has no working create path at all.  This definition embeds the
create path those statements evidently intend (they read the route handler
locals `text`, `utc_dt` and `cur`, and spec §6 documents exactly this
behaviour): strip the text; reject when the text or the datetime is missing
or empty, or when `datetime.fromisoformat` raises; otherwise convert to
UTC, `INSERT` a row (`status='scheduled'`, the other columns NULL, id from
AUTOINCREMENT) and arm a job for it at the scheduled instant. -/
def schedule_form (st : AppState) (text0 : String) (local_dt : Option String)
    (tz_offset_min : Int) : ScheduleResult × AppState :=
  let text := pyStrip text0
  match local_dt with
  | none => (ScheduleResult.validationError "Both tweet text and date/time required.", st)
  | some s =>
    if text = "" ∨ s = "" then
      (ScheduleResult.validationError "Both tweet text and date/time required.", st)
    else
      match to_utc s tz_offset_min with
      | none => (ScheduleResult.validationError "Invalid date/time format.", st)
      | some utc_dt =>
        let scheduled_id := st.db.nextId
        let row : Post :=
          { id := scheduled_id, text := text, scheduled_utc := utc_dt.seconds,
            status := Status.scheduled, posted_at := none,
            twitter_id := none, error := none }
        (ScheduleResult.created scheduled_id,
         { db := { rows := st.db.rows ++ [row], nextId := scheduled_id + 1 },
           timers := schedule_job st.timers scheduled_id utc_dt.seconds })

/-- Digit run continuation for `parseIntStr`: digits, in which a single
underscore may stand between two digits (Python's grouping syntax). -/
def parseIntTail (acc : Nat) : List Char → Option Nat
  | [] => some acc
  | c :: cs =>
    match digit? c with
    | some d => parseIntTail (acc * 10 + d) cs
    | none =>
      if c = '_' then
        match cs with
        | c2 :: cs2 => (digit? c2).bind (fun d => parseIntTail (acc * 10 + d) cs2)
        | [] => none
      else none

/-- Python's `int(s)` on a string: optional surrounding whitespace, an
optional sign, then a nonempty digit run in which single underscores may
separate digits.  `none` models the `ValueError` the builtin raises. -/
def parseIntStr (s : String) : Option Int :=
  let core := fun (cs : List Char) =>
    match cs with
    | [] => none
    | c :: rest =>
      (digit? c).bind (fun d => parseIntTail d rest)
  match (pyStrip s).data with
  | [] => none
  | '+' :: cs => (core cs).map (fun n => (n : Int))
  | '-' :: cs => (core cs).map (fun n => -(n : Int))
  | cs => (core cs).map (fun n => (n : Int))

/-- How the route reacts to a `/schedule` POST: either a normal response or
an exception that escapes the handler. -/
inductive RouteOutcome where
  | response (r : ScheduleResult)
  | uncaughtException (msg : String)
  deriving DecidableEq, Repr

/-- `schedule()` from `app.py` at the raw-form level: the very first thing
the handler does with the offset field is `int(request.form.get("tz_offset_min", "0"))`,
with no `try` around it — if the field is present but not an integer string,
a `ValueError` escapes before any validation or database access. -/
def schedule_route (st : AppState) (text : String) (local_dt : Option String)
    (tz_offset_min : Option String) : RouteOutcome × AppState :=
  match parseIntStr (tz_offset_min.getD "0") with
  | none => (RouteOutcome.uncaughtException "ValueError: invalid literal for int", st)
  | some off =>
    let p := schedule_form st text local_dt off
    (RouteOutcome.response p.1, p.2)

/-! ### The record-state invariant (spec §3) -/

/-- The per-record invariant of spec §3: exactly one of
`posted_at`+`twitter_id` set (status `posted`), `posted_at`+`error` set
(status `failed`), or neither set (status `scheduled` or `cancelled`). -/
def recordWf (r : Post) : Prop :=
  match r.status with
  | Status.posted => r.posted_at ≠ none ∧ r.twitter_id ≠ none ∧ r.error = none
  | Status.failed => r.posted_at ≠ none ∧ r.error ≠ none ∧ r.twitter_id = none
  | Status.scheduled => r.posted_at = none ∧ r.twitter_id = none ∧ r.error = none
  | Status.cancelled => r.posted_at = none ∧ r.twitter_id = none ∧ r.error = none

instance : DecidablePred recordWf := fun r => by
  unfold recordWf
  cases r.status <;> infer_instance

/-- Database well-formedness: the primary key really is a key (no duplicate
ids), AUTOINCREMENT dominates every stored id, and every row satisfies the
record invariant. -/
def dbWf (db : DB) : Prop :=
  (db.rows.map Post.id).Nodup ∧
  (∀ r ∈ db.rows, r.id < db.nextId) ∧
  (∀ r ∈ db.rows, recordWf r)

instance : DecidablePred dbWf := fun db => by
  unfold dbWf
  infer_instance

/-! ### Helper lemmas -/

theorem getById_mem {db : DB} {tid : Nat} {r : Post}
    (h : getById db tid = some r) : r ∈ db.rows :=
  List.mem_of_find?_eq_some h

theorem getById_id {db : DB} {tid : Nat} {r : Post}
    (h : getById db tid = some r) : r.id = tid := by
  have := List.find?_some h
  simpa using this

/-- List form of `getById_updateRow`: finding the updated id after an
id-preserving row update finds the updated row. -/
theorem find?_map_update (l : List Post) (tid : Nat) (f : Post → Post)
    (hf : ∀ r, (f r).id = r.id) :
    List.find? (fun r => r.id = tid)
        (l.map (fun r => if r.id = tid then f r else r)) =
      Option.map f (List.find? (fun r => r.id = tid) l) := by
  induction l with
  | nil => rfl
  | cons a l ih =>
    by_cases h : a.id = tid
    · rw [List.map_cons, if_pos h,
          List.find?_cons_of_pos _ (by simpa [hf] using h),
          List.find?_cons_of_pos _ (by simpa using h)]
      rfl
    · rw [List.map_cons, if_neg h,
          List.find?_cons_of_neg _ (by simpa using h),
          List.find?_cons_of_neg _ (by simpa using h), ih]

/-- List form of `getById_updateRow_other`: finding any other id is
unaffected by an id-preserving row update. -/
theorem find?_map_update_other (l : List Post) (tid j : Nat) (f : Post → Post)
    (hf : ∀ r, (f r).id = r.id) (hj : j ≠ tid) :
    List.find? (fun r => r.id = j)
        (l.map (fun r => if r.id = tid then f r else r)) =
      List.find? (fun r => r.id = j) l := by
  induction l with
  | nil => rfl
  | cons a l ih =>
    by_cases h : a.id = tid
    · have haj : ¬ a.id = j := fun hc => hj (hc.symm.trans h)
      rw [List.map_cons, if_pos h,
          List.find?_cons_of_neg _ (by simpa [hf, h] using fun hc => hj hc.symm),
          List.find?_cons_of_neg _ (by simpa using haj), ih]
    · by_cases haj : a.id = j
      · rw [List.map_cons, if_neg h,
            List.find?_cons_of_pos _ (by simpa using haj),
            List.find?_cons_of_pos _ (by simpa using haj)]
      · rw [List.map_cons, if_neg h,
            List.find?_cons_of_neg _ (by simpa using haj),
            List.find?_cons_of_neg _ (by simpa using haj), ih]

/-- Looking up the updated id after an id-preserving row update finds the
updated row. -/
theorem getById_updateRow (db : DB) (tid : Nat) (f : Post → Post)
    (hf : ∀ r, (f r).id = r.id) :
    getById (updateRow db tid f) tid = (getById db tid).map f :=
  find?_map_update db.rows tid f hf

/-- Looking up any other id is unaffected by an id-preserving row update. -/
theorem getById_updateRow_other (db : DB) (tid j : Nat) (f : Post → Post)
    (hf : ∀ r, (f r).id = r.id) (hj : j ≠ tid) :
    getById (updateRow db tid f) j = getById db j :=
  find?_map_update_other db.rows tid j f hf hj

/-- Appending a fresh row does not change lookups of old ids. -/
theorem getById_append_old {rows : List Post} {row : Post}
    (tid : Nat) (hfresh : row.id ≠ tid) :
    List.find? (fun r => r.id = tid) (rows ++ [row]) =
      List.find? (fun r => r.id = tid) rows := by
  rw [List.find?_append]
  cases h : List.find? (fun r => r.id = tid) rows with
  | some r => rfl
  | none => simp [hfresh]

/-- Looking up the id of a freshly appended row finds it, when no earlier
row carries that id. -/
theorem getById_append_new {rows : List Post} {row : Post} (nid : Nat)
    (hrow : row.id = nid) (hold : ∀ r ∈ rows, r.id ≠ nid) :
    List.find? (fun r => r.id = nid) (rows ++ [row]) = some row := by
  rw [List.find?_append]
  have hnone : List.find? (fun r => r.id = nid) rows = none := by
    rw [List.find?_eq_none]
    intro x hx
    simpa using hold x hx
  simp [hnone, hrow]

/-- `post_tweet_job` on an absent id is the identity. -/
theorem post_tweet_job_absent {db : DB} {tid : Nat} (pub : PublishResult)
    (now : Int) (h : getById db tid = none) :
    post_tweet_job db tid pub now = db := by
  unfold post_tweet_job
  rw [h]

/-- `post_tweet_job` on a non-`scheduled` row is the identity. -/
theorem post_tweet_job_guard {db : DB} {tid : Nat} {r : Post}
    (pub : PublishResult) (now : Int) (h : getById db tid = some r)
    (hs : r.status ≠ Status.scheduled) :
    post_tweet_job db tid pub now = db := by
  unfold post_tweet_job
  rw [h]
  exact if_pos hs

/-- `post_tweet_job` on a pending row with a successful publish performs the
success write. -/
theorem post_tweet_job_ok {db : DB} {tid : Nat} {r : Post} (t : String)
    (now : Int) (h : getById db tid = some r)
    (hs : r.status = Status.scheduled) :
    post_tweet_job db tid (PublishResult.ok t) now =
      updateRow db tid (markPosted now t) := by
  unfold post_tweet_job
  rw [h]
  exact if_neg (fun hc => hc hs)

/-- `post_tweet_job` on a pending row with a failing publish performs the
failure write. -/
theorem post_tweet_job_err {db : DB} {tid : Nat} {r : Post} (m : String)
    (now : Int) (h : getById db tid = some r)
    (hs : r.status = Status.scheduled) :
    post_tweet_job db tid (PublishResult.err m) now =
      updateRow db tid (markFailed now m) := by
  unfold post_tweet_job
  rw [h]
  exact if_neg (fun hc => hc hs)

/-- `scheduler.remove_job` on an id with no armed job changes nothing. -/
theorem unschedule_job_missing (ts : Timers) (tid : Nat)
    (h : lookupTimer ts tid = none) : unschedule_job ts tid = ts := by
  unfold unschedule_job
  rw [List.filter_eq_self]
  intro p hp
  unfold lookupTimer at h
  rcases hfind : List.find? (fun q => q.1 = tid) ts with _ | q
  · rw [List.find?_eq_none] at hfind
    simpa using hfind p hp
  · rw [hfind] at h
    simp at h

/-- After `add_job` with `replace_existing=True`, the armed fire time for the
given id is exactly the given run time. -/
theorem lookupTimer_schedule_job_self (ts : Timers) (tid : Nat) (t : Int) :
    lookupTimer (schedule_job ts tid t) tid = some t := by
  unfold lookupTimer schedule_job
  rw [List.find?_append]
  have hnone : List.find? (fun q : Nat × Int => q.1 = tid)
      (List.filter (fun p => p.1 ≠ tid) ts) = none := by
    rw [List.find?_eq_none]
    intro x hx
    have := List.of_mem_filter hx
    simpa using this
  simp [hnone]

/-- Filtering out entries for one key does not change `find?` on any other
key. -/
theorem find?_filter_other (ts : Timers) (tid j : Nat) (hj : j ≠ tid) :
    List.find? (fun q : Nat × Int => q.1 = j)
        (List.filter (fun p => p.1 ≠ tid) ts) =
      List.find? (fun q : Nat × Int => q.1 = j) ts := by
  induction ts with
  | nil => rfl
  | cons a l ih =>
    by_cases ha : a.1 = tid
    · have haj : ¬ (a.1 = j) := fun hc => hj (hc.symm.trans ha)
      rw [List.filter_cons_of_neg (by simpa using ha),
          List.find?_cons_of_neg _ (by simpa using haj), ih]
    · by_cases haj : a.1 = j
      · rw [List.filter_cons_of_pos (by simpa using ha),
            List.find?_cons_of_pos _ (by simpa using haj),
            List.find?_cons_of_pos _ (by simpa using haj)]
      · rw [List.filter_cons_of_pos (by simpa using ha),
            List.find?_cons_of_neg _ (by simpa using haj),
            List.find?_cons_of_neg _ (by simpa using haj), ih]

/-- `add_job` for one id leaves every other id's armed job unchanged. -/
theorem lookupTimer_schedule_job_other (ts : Timers) (tid j : Nat) (t : Int)
    (hj : j ≠ tid) :
    lookupTimer (schedule_job ts tid t) j = lookupTimer ts j := by
  unfold lookupTimer schedule_job
  rw [List.find?_append, find?_filter_other ts tid j hj]
  have hlast : List.find? (fun q : Nat × Int => q.1 = j) [(tid, t)] = none := by
    simp only [List.find?_singleton, decide_eq_true_eq]
    exact if_neg (fun hc => absurd hc.symm hj)
  rw [hlast]
  cases List.find? (fun q : Nat × Int => q.1 = j) ts with
  | some q => rfl
  | none => rfl

/-- When the guard passes, `post_tweet_job` leaves the row present with a
non-`scheduled` status and really changes it. -/
theorem post_tweet_job_acts {db : DB} {tid : Nat} {r : Post}
    (pub : PublishResult) (now : Int) (h : getById db tid = some r)
    (hs : r.status = Status.scheduled) :
    ∃ r', getById (post_tweet_job db tid pub now) tid = some r' ∧
          r'.status ≠ Status.scheduled ∧ r' ≠ r := by
  cases pub with
  | ok t =>
    refine ⟨markPosted now t r,
            by rw [post_tweet_job_ok t now h hs,
                   getById_updateRow db tid (markPosted now t) (fun _ => rfl),
                   h]; rfl,
            by simp [markPosted], ?_⟩
    intro he
    have hcs := congrArg Post.status he
    rw [hs] at hcs
    simp [markPosted] at hcs
  | err m =>
    refine ⟨markFailed now m r,
            by rw [post_tweet_job_err m now h hs,
                   getById_updateRow db tid (markFailed now m) (fun _ => rfl),
                   h]; rfl,
            by simp [markFailed], ?_⟩
    intro he
    have hcs := congrArg Post.status he
    rw [hs] at hcs
    simp [markFailed] at hcs

/-- `cancel` on an absent id only flashes "Not found". -/
theorem cancel_absent {st : AppState} {tid : Nat}
    (h : getById st.db tid = none) :
    cancel st tid = (CancelResult.notFound, st) := by
  unfold cancel
  rw [h]

/-- `cancel` on a non-`scheduled` row is rejected without mutation. -/
theorem cancel_guard {st : AppState} {tid : Nat} {r : Post}
    (h : getById st.db tid = some r) (hs : r.status ≠ Status.scheduled) :
    cancel st tid = (CancelResult.notCancellable, st) := by
  unfold cancel
  rw [h]
  exact if_pos hs

/-- `cancel` on a pending row performs the cancel write and removes the
job. -/
theorem cancel_ok {st : AppState} {tid : Nat} {r : Post}
    (h : getById st.db tid = some r) (hs : r.status = Status.scheduled) :
    cancel st tid = (CancelResult.ok,
      { db := updateRow st.db tid markCancelled,
        timers := unschedule_job st.timers tid }) := by
  unfold cancel
  rw [h]
  exact if_neg (fun hc => hc hs)

/-- `updateRow` with an id-preserving transform leaves the id column
unchanged. -/
theorem updateRow_map_id (db : DB) (tid : Nat) (f : Post → Post)
    (hf : ∀ r, (f r).id = r.id) :
    (updateRow db tid f).rows.map Post.id = db.rows.map Post.id := by
  show (db.rows.map _).map Post.id = _
  rw [List.map_map]
  refine List.map_congr_left (fun a ha => ?_)
  by_cases h : a.id = tid <;> simp [Function.comp, h, hf]

/-- Unfolding `recordWf` at a pending row. -/
theorem recordWf_of_scheduled {r : Post} (h : recordWf r)
    (hs : r.status = Status.scheduled) :
    r.posted_at = none ∧ r.twitter_id = none ∧ r.error = none := by
  unfold recordWf at h
  rw [hs] at h
  exact h

/-- A guarded single-row update preserves `dbWf` when the transform keeps
ids and sends the found row to a well-formed row. -/
theorem dbWf_updateRow {db : DB} {tid : Nat} {r : Post} (f : Post → Post)
    (hwf : dbWf db) (hg : getById db tid = some r)
    (hf : ∀ x, (f x).id = x.id) (hfr : recordWf (f r)) :
    dbWf (updateRow db tid f) := by
  obtain ⟨hnd, hlt, hrec⟩ := hwf
  refine ⟨by rw [updateRow_map_id db tid f hf]; exact hnd, ?_, ?_⟩
  · intro x hx
    obtain ⟨y, hy, hxy⟩ := List.mem_map.mp hx
    rw [← hxy]
    by_cases h : y.id = tid
    · rw [if_pos h]
      show (f y).id < db.nextId
      rw [hf y]
      exact hlt y hy
    · rw [if_neg h]
      exact hlt y hy
  · intro x hx
    obtain ⟨y, hy, hxy⟩ := List.mem_map.mp hx
    rw [← hxy]
    by_cases h : y.id = tid
    · rw [if_pos h]
      have hyr : y = r :=
        List.inj_on_of_nodup_map hnd hy (getById_mem hg)
          (h.trans (getById_id hg).symm)
      rw [hyr]
      exact hfr
    · rw [if_neg h]
      exact hrec y hy

/-- `schedule_form` either leaves the state unchanged (the validation
branches) or appends the single new pending row and arms its job. -/
theorem schedule_form_state (st : AppState) (text : String)
    (ldt : Option String) (off : Int) :
    (schedule_form st text ldt off).2 = st ∨
    ∃ u, (schedule_form st text ldt off).2 =
      { db := { rows := st.db.rows ++
                  [{ id := st.db.nextId, text := pyStrip text,
                     scheduled_utc := u, status := Status.scheduled,
                     posted_at := none, twitter_id := none, error := none }],
                nextId := st.db.nextId + 1 },
        timers := schedule_job st.timers st.db.nextId u } := by
  cases ldt with
  | none => exact Or.inl rfl
  | some s =>
    by_cases hc : pyStrip text = "" ∨ s = ""
    · left
      simp only [schedule_form]
      rw [if_pos hc]
    · rcases hp : fromisoformat s with _ | n
      · left
        simp only [schedule_form]
        rw [if_neg hc]
        unfold to_utc
        rw [hp]
        rfl
      · right
        refine ⟨n - off * 60, ?_⟩
        simp only [schedule_form]
        rw [if_neg hc]
        unfold to_utc
        rw [hp]
        rfl

/-! ### Concrete fixtures used by the witness theorems -/

/-- A single pending row, as `schedule_form` would create it. -/
def rowHi : Post :=
  { id := 1, text := "hi", scheduled_utc := 100, status := Status.scheduled,
    posted_at := none, twitter_id := none, error := none }

/-- A one-row database holding `rowHi`. -/
def dbHi : DB := { rows := [rowHi], nextId := 2 }

/-- `dbHi` together with the job armed for `rowHi`. -/
def stHi : AppState := { db := dbHi, timers := [(1, 100)] }

/-! ### Claim theorems -/

/-- C1: the Delivery Executor is idempotent and guarded.  Calling
`post_tweet_job` twice in direct succession on the same id performs exactly
one state transition: the second call is a no-op (it observes a
non-`scheduled` status), a call on an id with no matching row is a no-op
that does not mutate the database, and a call that does act (row present,
status `scheduled`) changes the database and leaves the row
non-`scheduled`. -/
theorem execute_idempotent_and_guarded :
    (∀ (db : DB) (tid : Nat) (pub pub' : PublishResult) (now now' : Int),
        post_tweet_job (post_tweet_job db tid pub now) tid pub' now' =
          post_tweet_job db tid pub now) ∧
    (∀ (db : DB) (tid : Nat) (pub : PublishResult) (now : Int),
        getById db tid = none → post_tweet_job db tid pub now = db) ∧
    (∀ (db : DB) (tid : Nat) (r : Post) (pub : PublishResult) (now : Int),
        getById db tid = some r → r.status = Status.scheduled →
          post_tweet_job db tid pub now ≠ db ∧
          ∃ r', getById (post_tweet_job db tid pub now) tid = some r' ∧
                r'.status ≠ Status.scheduled) := by
  refine ⟨?_, fun db tid pub now h => post_tweet_job_absent pub now h, ?_⟩
  · intro db tid pub pub' now now'
    rcases hg : getById db tid with _ | r
    · rw [post_tweet_job_absent pub now hg]
      exact post_tweet_job_absent pub' now' hg
    · by_cases hs : r.status = Status.scheduled
      · obtain ⟨r', hr', hst, _⟩ := post_tweet_job_acts pub now hg hs
        exact post_tweet_job_guard pub' now' hr' hst
      · rw [post_tweet_job_guard pub now hg hs]
        exact post_tweet_job_guard pub' now' hg hs
  · intro db tid r pub now hg hs
    obtain ⟨r', hr', hst, hne⟩ := post_tweet_job_acts pub now hg hs
    refine ⟨?_, r', hr', hst⟩
    intro he
    rw [he, hg] at hr'
    exact hne (Option.some.inj hr').symm

/-- Witness for C1 at concrete inputs: executing an absent id (`7` in a
one-row database) is a no-op, and executing the pending row `1` mutates the
database. -/
theorem execute_idempotent_and_guarded_witness :
    post_tweet_job dbHi 7 (PublishResult.ok "999") 50 = dbHi ∧
    post_tweet_job dbHi 1 (PublishResult.ok "999") 50 ≠ dbHi :=
  ⟨execute_idempotent_and_guarded.2.1 dbHi 7 (PublishResult.ok "999") 50
      (by decide),
   (execute_idempotent_and_guarded.2.2 dbHi 1 rowHi (PublishResult.ok "999")
      50 (by decide) (by decide)).1⟩

/-- C2: when the publish call for a pending row succeeds with provider id
`t`, the post-state of the row is `status='posted'`, `posted_at` set to the
current instant, `twitter_id` (the external id) set to `t`, and `error`
unset. -/
theorem execute_success_poststate (db : DB) (tid : Nat) (r : Post)
    (t : String) (now : Int) (hg : getById db tid = some r)
    (hs : r.status = Status.scheduled) (he : r.error = none) :
    getById (post_tweet_job db tid (PublishResult.ok t) now) tid =
      some { r with status := Status.posted, posted_at := some now,
                    twitter_id := some t } ∧
    ({ r with status := Status.posted, posted_at := some now,
              twitter_id := some t } : Post).error = none := by
  constructor
  · rw [post_tweet_job_ok t now hg hs,
        getById_updateRow db tid (markPosted now t) (fun _ => rfl), hg]
    rfl
  · exact he

/-- Witness for C2: publishing `rowHi` with provider id `"999"` at time 50
yields the posted row. -/
theorem execute_success_poststate_witness :
    getById (post_tweet_job dbHi 1 (PublishResult.ok "999") 50) 1 =
      some { rowHi with status := Status.posted, posted_at := some 50,
                        twitter_id := some "999" } ∧
    ({ rowHi with status := Status.posted, posted_at := some 50,
                  twitter_id := some "999" } : Post).error = none :=
  execute_success_poststate dbHi 1 rowHi "999" 50 (by decide) (by decide)
    (by decide)

/-- C3: when the publish call for a pending row fails with message `m`, the
post-state of the row is `status='failed'`, `posted_at` set, `error` set to
the failure description, and `twitter_id` (the external id) unset; the
failure is recorded on the row only (the exception is caught, never
propagated) and no retry is armed. -/
theorem execute_failure_poststate (db : DB) (tid : Nat) (r : Post)
    (m : String) (now : Int) (hg : getById db tid = some r)
    (hs : r.status = Status.scheduled) (ht : r.twitter_id = none) :
    getById (post_tweet_job db tid (PublishResult.err m) now) tid =
      some { r with status := Status.failed, posted_at := some now,
                    error := some m } ∧
    ({ r with status := Status.failed, posted_at := some now,
              error := some m } : Post).twitter_id = none := by
  constructor
  · rw [post_tweet_job_err m now hg hs,
        getById_updateRow db tid (markFailed now m) (fun _ => rfl), hg]
    rfl
  · exact ht

/-- Witness for C3: a failing publish of `rowHi` with message
`"Timeout"` at time 50 yields the failed row. -/
theorem execute_failure_poststate_witness :
    getById (post_tweet_job dbHi 1 (PublishResult.err "Timeout") 50) 1 =
      some { rowHi with status := Status.failed, posted_at := some 50,
                        error := some "Timeout" } ∧
    ({ rowHi with status := Status.failed, posted_at := some 50,
                  error := some "Timeout" } : Post).twitter_id = none :=
  execute_failure_poststate dbHi 1 rowHi "Timeout" 50 (by decide) (by decide)
    (by decide)

/-- C5: time conversion.  The route's conversion computes
UTC = local − `tz_offset_min` minutes, always tags the result with the UTC
zone, and fails (the `ValueError` path) exactly when the string does not
parse as a date-and-time; for offset 0 the input `"2025-11-02T22:30"` yields
exactly the instant 2025-11-02T22:30:00Z. -/
theorem to_utc_contract :
    (∀ (s : String) (off : Int), fromisoformat s = none → to_utc s off = none) ∧
    (∀ (s : String) (off : Int) (n : Int), fromisoformat s = some n →
        to_utc s off = some { seconds := n - off * 60, tzinfo := some Tz.utc }) ∧
    to_utc "2025-11-02T22:30" 0 =
      some { seconds := civilToEpochSecs 2025 11 2 22 30 0,
             tzinfo := some Tz.utc } := by
  refine ⟨?_, ?_, by decide⟩
  · intro s off h
    unfold to_utc
    rw [h]
    rfl
  · intro s off n h
    unfold to_utc
    rw [h]
    rfl

/-- Witness for C5 at a concrete input: `"2025-01-01T00:00"` parses, so
`to_utc` with offset −330 (IST, as the browser would send it) yields the
instant 330 minutes after midnight, tagged UTC. -/
theorem to_utc_contract_witness :
    to_utc "2025-01-01T00:00" (-330) =
      some { seconds := 1735689600 - (-330) * 60, tzinfo := some Tz.utc } :=
  to_utc_contract.2.1 "2025-01-01T00:00" (-330) 1735689600 (by decide)

/-- C4: the create contract.  The source create path is broken as written:
`app.py` fails to parse because the insert lines of `schedule()` are
dedented to module level (see `schedule_form`), so no create can run.  This
theorem proves the contract of the evidently intended create path, with the
offset already converted (see C10 for the raw field): empty (post-strip)
text or an unparsable datetime string yields a distinguishable validation
failure with no state mutation — and so does a missing datetime field; a
valid input appends exactly one new row, which `getById` then reports as
`scheduled` with `posted_at` unset, and arms a job for that row. -/
theorem schedule_form_contract :
    (∀ (st : AppState) (text s : String) (off : Int),
        pyStrip text = "" ∨ fromisoformat s = none →
        ∃ m, schedule_form st text (some s) off =
          (ScheduleResult.validationError m, st)) ∧
    (∀ (st : AppState) (text : String) (off : Int),
        ∃ m, schedule_form st text none off =
          (ScheduleResult.validationError m, st)) ∧
    (∀ (st : AppState) (text s : String) (off n : Int),
        pyStrip text ≠ "" → fromisoformat s = some n → dbWf st.db →
        schedule_form st text (some s) off =
          (ScheduleResult.created st.db.nextId,
           { db := { rows := st.db.rows ++
                       [{ id := st.db.nextId, text := pyStrip text,
                          scheduled_utc := n - off * 60,
                          status := Status.scheduled, posted_at := none,
                          twitter_id := none, error := none }],
                     nextId := st.db.nextId + 1 },
             timers := schedule_job st.timers st.db.nextId (n - off * 60) }) ∧
        getById (schedule_form st text (some s) off).2.db st.db.nextId =
          some { id := st.db.nextId, text := pyStrip text,
                 scheduled_utc := n - off * 60, status := Status.scheduled,
                 posted_at := none, twitter_id := none, error := none } ∧
        lookupTimer (schedule_form st text (some s) off).2.timers
            st.db.nextId = some (n - off * 60)) := by
  refine ⟨?_, ?_, ?_⟩
  · intro st text s off h
    by_cases he : pyStrip text = "" ∨ s = ""
    · exact ⟨"Both tweet text and date/time required.",
        by simp only [schedule_form]; rw [if_pos he]⟩
    · have hp : fromisoformat s = none := by
        rcases h with h | h
        · exact absurd (Or.inl h) he
        · exact h
      refine ⟨"Invalid date/time format.", ?_⟩
      simp only [schedule_form]
      rw [if_neg he]
      unfold to_utc
      rw [hp]
      rfl
  · intro st text off
    exact ⟨"Both tweet text and date/time required.", rfl⟩
  · intro st text s off n htext hp hwf
    have hs : s ≠ "" := by
      intro hc
      rw [hc] at hp
      have hemp : fromisoformat "" = none := by decide
      rw [hemp] at hp
      exact Option.noConfusion hp
    have hcond : ¬ (pyStrip text = "" ∨ s = "") := by
      rintro (hc | hc)
      · exact htext hc
      · exact hs hc
    have hform : schedule_form st text (some s) off =
        (ScheduleResult.created st.db.nextId,
         { db := { rows := st.db.rows ++
                     [{ id := st.db.nextId, text := pyStrip text,
                        scheduled_utc := n - off * 60,
                        status := Status.scheduled, posted_at := none,
                        twitter_id := none, error := none }],
                   nextId := st.db.nextId + 1 },
           timers := schedule_job st.timers st.db.nextId (n - off * 60) }) := by
      simp only [schedule_form]
      rw [if_neg hcond]
      unfold to_utc
      rw [hp]
      rfl
    refine ⟨hform, ?_, ?_⟩
    · rw [hform]
      exact getById_append_new st.db.nextId rfl
        (fun r hr => Nat.ne_of_lt (hwf.2.1 r hr))
    · rw [hform]
      exact lookupTimer_schedule_job_self st.timers st.db.nextId (n - off * 60)

/-- Witness for C4 at concrete inputs: whitespace-only text is rejected
without mutation, and a valid create on the empty database produces the
pending row with `posted_at` unset and an armed job. -/
theorem schedule_form_contract_witness :
    (∃ m, schedule_form { db := { rows := [], nextId := 1 }, timers := [] }
        " " (some "2025-01-01T00:00") 0 =
      (ScheduleResult.validationError m,
       { db := { rows := [], nextId := 1 }, timers := [] })) ∧
    getById (schedule_form { db := { rows := [], nextId := 1 }, timers := [] }
        "Hello world" (some "2025-01-01T00:00") 0).2.db 1 =
      some { id := 1, text := "Hello world", scheduled_utc := 1735689600 - 0 * 60,
             status := Status.scheduled, posted_at := none,
             twitter_id := none, error := none } :=
  ⟨schedule_form_contract.1 { db := { rows := [], nextId := 1 }, timers := [] }
      " " "2025-01-01T00:00" 0 (Or.inl (by decide)),
   (schedule_form_contract.2.2 { db := { rows := [], nextId := 1 }, timers := [] }
      "Hello world" "2025-01-01T00:00" 0 1735689600 (by decide) (by decide)
      (by decide)).2.1⟩

/-- C10: a `/schedule` request whose `tz_offset_min` field is present but
not an integer string makes the unguarded `int(...)` conversion raise before
any validation outcome is produced: the route neither returns a validation
failure nor mutates any state. -/
theorem schedule_route_offset_crash (st : AppState) (text : String)
    (local_dt : Option String) (raw : String)
    (hraw : parseIntStr raw = none) :
    schedule_route st text local_dt (some raw) =
      (RouteOutcome.uncaughtException "ValueError: invalid literal for int",
       st) := by
  unfold schedule_route
  simp only [Option.getD_some]
  rw [hraw]

/-- Witness for C10: the offset string `"abc"` (with otherwise valid form
fields) crashes the route and leaves the one-row state untouched. -/
theorem schedule_route_offset_crash_witness :
    schedule_route stHi "Hello world" (some "2025-01-01T00:00")
        (some "abc") =
      (RouteOutcome.uncaughtException "ValueError: invalid literal for int",
       stHi) :=
  schedule_route_offset_crash stHi "Hello world" (some "2025-01-01T00:00")
    "abc" (by decide)

/-- C6: the cancel contract.  Cancelling an unknown id reports not-found
with no mutation; cancelling a non-`scheduled` row is rejected with the
distinguishable "not cancellable" outcome and changes nothing — in
particular, `cancel` after `post_tweet_job` has fired on the same pending
row is rejected and leaves the state unchanged; cancelling a `scheduled`
row sets its status to `cancelled` and removes its job, and removing a
missing job is a no-op rather than an error. -/
theorem cancel_contract :
    (∀ (st : AppState) (tid : Nat), getById st.db tid = none →
        cancel st tid = (CancelResult.notFound, st)) ∧
    (∀ (st : AppState) (tid : Nat) (r : Post), getById st.db tid = some r →
        r.status ≠ Status.scheduled →
        cancel st tid = (CancelResult.notCancellable, st)) ∧
    (∀ (st : AppState) (tid : Nat) (r : Post) (pub : PublishResult)
        (now : Int), getById st.db tid = some r →
        r.status = Status.scheduled →
        cancel { db := post_tweet_job st.db tid pub now,
                 timers := st.timers } tid =
          (CancelResult.notCancellable,
           { db := post_tweet_job st.db tid pub now,
             timers := st.timers })) ∧
    (∀ (st : AppState) (tid : Nat) (r : Post), getById st.db tid = some r →
        r.status = Status.scheduled →
        (cancel st tid).1 = CancelResult.ok ∧
        getById (cancel st tid).2.db tid =
          some { r with status := Status.cancelled } ∧
        (cancel st tid).2.timers = unschedule_job st.timers tid) ∧
    (∀ (ts : Timers) (tid : Nat), lookupTimer ts tid = none →
        unschedule_job ts tid = ts) := by
  refine ⟨fun st tid h => cancel_absent h,
          fun st tid r h hs => cancel_guard h hs, ?_, ?_,
          fun ts tid h => unschedule_job_missing ts tid h⟩
  · intro st tid r pub now hg hs
    obtain ⟨r', hr', hst, _⟩ := post_tweet_job_acts pub now hg hs
    exact cancel_guard hr' hst
  · intro st tid r hg hs
    rw [cancel_ok hg hs]
    refine ⟨rfl, ?_, rfl⟩
    show getById (updateRow st.db tid markCancelled) tid = _
    rw [getById_updateRow st.db tid markCancelled (fun _ => rfl), hg]
    rfl

/-- Witness for C6 at concrete inputs: cancelling the pending row `1` of
`stHi` cancels it; cancelling the unknown id `7` reports not-found;
cancelling id `1` again after it has been posted is rejected without
mutation. -/
theorem cancel_contract_witness :
    cancel stHi 7 = (CancelResult.notFound, stHi) ∧
    (cancel stHi 1).1 = CancelResult.ok ∧
    getById (cancel stHi 1).2.db 1 =
      some { rowHi with status := Status.cancelled } ∧
    cancel { db := post_tweet_job stHi.db 1 (PublishResult.ok "999") 50,
             timers := stHi.timers } 1 =
      (CancelResult.notCancellable,
       { db := post_tweet_job stHi.db 1 (PublishResult.ok "999") 50,
         timers := stHi.timers }) :=
  ⟨cancel_contract.1 stHi 7 (by decide),
   (cancel_contract.2.2.2.1 stHi 1 rowHi (by decide) (by decide)).1,
   (cancel_contract.2.2.2.1 stHi 1 rowHi (by decide) (by decide)).2.1,
   cancel_contract.2.2.1 stHi 1 rowHi (PublishResult.ok "999") 50 (by decide)
     (by decide)⟩

/-- C9: the state invariant of spec §3 is preserved by every operation
(create, Execute, cancel): each keeps every row in exactly one of the three
legal field configurations consistent with its status, and no operation
ever changes a record whose status is already terminal (`posted`, `failed`,
`cancelled`) — in particular none ever moves such a record back to
`scheduled`.  The Execute and cancel conjuncts are about the intact source
functions; the create conjuncts are about the evidently intended create
path `schedule_form`, since the source create as written does not parse
(see `schedule_form`). -/
theorem invariants_preserved :
    (∀ (st : AppState) (text : String) (ldt : Option String) (off : Int),
        dbWf st.db → dbWf (schedule_form st text ldt off).2.db) ∧
    (∀ (db : DB) (tid : Nat) (pub : PublishResult) (now : Int),
        dbWf db → dbWf (post_tweet_job db tid pub now)) ∧
    (∀ (st : AppState) (tid : Nat),
        dbWf st.db → dbWf (cancel st tid).2.db) ∧
    (∀ (db : DB) (tid j : Nat) (pub : PublishResult) (now : Int) (r : Post),
        getById db j = some r → r.status ≠ Status.scheduled →
        getById (post_tweet_job db tid pub now) j = some r) ∧
    (∀ (st : AppState) (tid j : Nat) (r : Post),
        getById st.db j = some r → r.status ≠ Status.scheduled →
        getById (cancel st tid).2.db j = some r) ∧
    (∀ (st : AppState) (text : String) (ldt : Option String) (off : Int)
        (j : Nat) (r : Post), dbWf st.db → getById st.db j = some r →
        getById (schedule_form st text ldt off).2.db j = some r) := by
  refine ⟨?_, ?_, ?_, ?_, ?_, ?_⟩
  · intro st text ldt off hwf
    rcases schedule_form_state st text ldt off with h | ⟨u, h⟩
    · rw [h]
      exact hwf
    · rw [h]
      obtain ⟨hnd, hlt, hrec⟩ := hwf
      refine ⟨?_, ?_, ?_⟩
      · show ((st.db.rows ++ [_]).map Post.id).Nodup
        rw [List.map_append, List.map_singleton]
        refine List.nodup_append.mpr ⟨hnd, List.nodup_singleton _, ?_⟩
        rw [List.disjoint_singleton]
        intro hmem
        obtain ⟨y, hy, hid⟩ := List.mem_map.mp hmem
        exact absurd hid (Nat.ne_of_lt (hlt y hy))
      · intro x hx
        rcases List.mem_append.mp hx with hx | hx
        · exact Nat.lt_trans (hlt x hx) (Nat.lt_succ_self _)
        · rw [List.mem_singleton.mp hx]
          exact Nat.lt_succ_self _
      · intro x hx
        rcases List.mem_append.mp hx with hx | hx
        · exact hrec x hx
        · rw [List.mem_singleton.mp hx]
          exact ⟨rfl, rfl, rfl⟩
  · intro db tid pub now hwf
    rcases hg : getById db tid with _ | r
    · rw [post_tweet_job_absent pub now hg]
      exact hwf
    · by_cases hs : r.status = Status.scheduled
      · have hsch := recordWf_of_scheduled (hwf.2.2 r (getById_mem hg)) hs
        cases pub with
        | ok t =>
          rw [post_tweet_job_ok t now hg hs]
          exact dbWf_updateRow (markPosted now t) hwf hg (fun _ => rfl)
            ⟨Option.some_ne_none _, Option.some_ne_none _, hsch.2.2⟩
        | err m =>
          rw [post_tweet_job_err m now hg hs]
          exact dbWf_updateRow (markFailed now m) hwf hg (fun _ => rfl)
            ⟨Option.some_ne_none _, Option.some_ne_none _, hsch.2.1⟩
      · rw [post_tweet_job_guard pub now hg hs]
        exact hwf
  · intro st tid hwf
    rcases hg : getById st.db tid with _ | r
    · rw [cancel_absent hg]
      exact hwf
    · by_cases hs : r.status = Status.scheduled
      · have hsch := recordWf_of_scheduled (hwf.2.2 r (getById_mem hg)) hs
        rw [cancel_ok hg hs]
        exact dbWf_updateRow markCancelled hwf hg (fun _ => rfl)
          ⟨hsch.1, hsch.2.1, hsch.2.2⟩
      · rw [cancel_guard hg hs]
        exact hwf
  · intro db tid j pub now r hgj hterm
    rcases hg : getById db tid with _ | r0
    · rw [post_tweet_job_absent pub now hg]
      exact hgj
    · by_cases hs : r0.status = Status.scheduled
      · by_cases hj : j = tid
        · rw [hj] at hgj
          rw [hgj] at hg
          cases Option.some.inj hg
          exact absurd hs hterm
        · cases pub with
          | ok t =>
            rw [post_tweet_job_ok t now hg hs,
                getById_updateRow_other db tid j (markPosted now t)
                  (fun _ => rfl) hj]
            exact hgj
          | err m =>
            rw [post_tweet_job_err m now hg hs,
                getById_updateRow_other db tid j (markFailed now m)
                  (fun _ => rfl) hj]
            exact hgj
      · rw [post_tweet_job_guard pub now hg hs]
        exact hgj
  · intro st tid j r hgj hterm
    rcases hg : getById st.db tid with _ | r0
    · rw [cancel_absent hg]
      exact hgj
    · by_cases hs : r0.status = Status.scheduled
      · by_cases hj : j = tid
        · rw [hj] at hgj
          rw [hgj] at hg
          cases Option.some.inj hg
          exact absurd hs hterm
        · rw [cancel_ok hg hs]
          show getById (updateRow st.db tid markCancelled) j = some r
          rw [getById_updateRow_other st.db tid j markCancelled
                (fun _ => rfl) hj]
          exact hgj
      · rw [cancel_guard hg hs]
        exact hgj
  · intro st text ldt off j r hwf hgj
    rcases schedule_form_state st text ldt off with h | ⟨u, h⟩
    · rw [h]
      exact hgj
    · rw [h]
      show List.find? (fun x => x.id = j) (st.db.rows ++ [_]) = some r
      rw [getById_append_old j
            (Nat.ne_of_gt ((getById_id hgj) ▸ hwf.2.1 r (getById_mem hgj)))]
      exact hgj

/-- Witness for C9 at concrete inputs: the one-row database `dbHi` is
well-formed, and it stays well-formed after a successful delivery; the
posted record is then untouched by a later `cancel`. -/
theorem invariants_preserved_witness :
    dbWf (post_tweet_job dbHi 1 (PublishResult.ok "999") 50) ∧
    getById (cancel { db := post_tweet_job dbHi 1 (PublishResult.ok "999") 50,
                      timers := [] } 1).2.db 1 =
      some { rowHi with status := Status.posted, posted_at := some 50,
                        twitter_id := some "999" } :=
  ⟨invariants_preserved.2.1 dbHi 1 (PublishResult.ok "999") 50 (by decide),
   invariants_preserved.2.2.2.2.1
     { db := post_tweet_job dbHi 1 (PublishResult.ok "999") 50, timers := [] }
     1 1 { rowHi with status := Status.posted, posted_at := some 50,
                      twitter_id := some "999" } (by decide) (by decide)⟩

/-- Totality of the `ORDER BY scheduled_utc` comparison. -/
instance : IsTotal Post (fun a b : Post => a.scheduled_utc ≤ b.scheduled_utc) :=
  ⟨fun a b => Int.le_total a.scheduled_utc b.scheduled_utc⟩

/-- Transitivity of the `ORDER BY scheduled_utc` comparison. -/
instance : IsTrans Post (fun a b : Post => a.scheduled_utc ≤ b.scheduled_utc) :=
  ⟨fun _ _ _ hab hbc => le_trans hab hbc⟩

/-- Arming one job per row, starting from a job table disjoint from the
rows' ids, appends exactly one entry per row. -/
theorem foldl_schedule_job (now : Int) :
    ∀ (rows : List Post) (acc : Timers),
      (∀ r ∈ rows, ∀ p ∈ acc, p.1 ≠ r.id) →
      (rows.map Post.id).Nodup →
      rows.foldl
          (fun ts r => schedule_job ts r.id (fireTime now r.scheduled_utc))
          acc =
        acc ++ rows.map (fun r => (r.id, fireTime now r.scheduled_utc))
  | [], acc, _, _ => by simp
  | a :: l, acc, hdisj, hnd => by
    rw [List.foldl_cons]
    have hstep : schedule_job acc a.id (fireTime now a.scheduled_utc) =
        acc ++ [(a.id, fireTime now a.scheduled_utc)] := by
      unfold schedule_job
      congr 1
      rw [List.filter_eq_self]
      intro p hp
      simpa using hdisj a (by simp) p hp
    rw [hstep]
    have hdisj' : ∀ r ∈ l,
        ∀ p ∈ acc ++ [(a.id, fireTime now a.scheduled_utc)], p.1 ≠ r.id := by
      intro r hr p hp
      rcases List.mem_append.mp hp with hp | hp
      · exact hdisj r (List.mem_cons_of_mem a hr) p hp
      · rw [List.mem_singleton.mp hp]
        intro hc
        have hc2 : a.id = r.id := hc
        exact (List.nodup_cons.mp hnd).1
          (by rw [hc2]; exact List.mem_map_of_mem Post.id hr)
    rw [foldl_schedule_job now l _ hdisj' (List.nodup_cons.mp hnd).2,
        List.map_cons, List.append_assoc]
    rfl

/-- C7 counterexample: with `now = 100` and a single pending row at
`scheduled_utc = 103` — strictly between `now` and `now + 5` — the rebuilt
job is armed at `103`, whereas the fire time the claim specifies,
`max(scheduled_utc, now + small_delay)` with the code's 5-second delay, is
`105`. -/
theorem load_fire_time_not_max_counterexample :
    (load_and_schedule_all
        { db := { rows := [{ id := 1, text := "hi", scheduled_utc := 103,
                             status := Status.scheduled, posted_at := none,
                             twitter_id := none, error := none }],
                  nextId := 2 },
          timers := [] } 100).timers = [(1, 103)] ∧
    (103 : Int) ≠ max 103 (100 + 5) := by decide

/-- C7 (amended): `load_and_schedule_all` reads exactly the rows with
status `scheduled`, ordered ascending by `scheduled_utc`, and — starting
from an empty job table over distinct ids — arms exactly one job per such
row with fire time `scheduled_utc` if that is still in the future and
`now + 5` seconds otherwise (not `max(scheduled_utc, now + 5)`, which
differs when `scheduled_utc` lies strictly between `now` and `now + 5`);
every armed job fires no earlier than its row's `scheduled_utc` and
strictly after `now`, and every past-due row fires exactly 5 seconds after
`now`. -/
theorem load_and_schedule_all_contract (st : AppState) (now : Int)
    (hnd : (st.db.rows.map Post.id).Nodup) (h0 : st.timers = []) :
    (load_and_schedule_all st now).timers =
      (pendingRows st.db).map
        (fun r => (r.id, fireTime now r.scheduled_utc)) ∧
    List.Perm (pendingRows st.db)
      (st.db.rows.filter (fun r => r.status = Status.scheduled)) ∧
    List.Sorted (fun a b : Post => a.scheduled_utc ≤ b.scheduled_utc)
      (pendingRows st.db) ∧
    (load_and_schedule_all st now).timers.length =
      (st.db.rows.filter (fun r => r.status = Status.scheduled)).length ∧
    (∀ p ∈ (load_and_schedule_all st now).timers,
        ∃ r ∈ st.db.rows, r.status = Status.scheduled ∧
          p = (r.id, fireTime now r.scheduled_utc) ∧
          r.scheduled_utc ≤ p.2 ∧ now < p.2 ∧
          (r.scheduled_utc ≤ now → p.2 = now + 5)) := by
  have hperm : List.Perm (pendingRows st.db)
      (st.db.rows.filter (fun r => r.status = Status.scheduled)) :=
    List.perm_insertionSort _ _
  have hpnd : ((pendingRows st.db).map Post.id).Nodup := by
    have hfil : ((st.db.rows.filter
        (fun r => r.status = Status.scheduled)).map Post.id).Nodup :=
      ((List.filter_sublist st.db.rows).map Post.id).nodup hnd
    exact ((hperm.map Post.id).symm).nodup hfil
  have heq : (load_and_schedule_all st now).timers =
      (pendingRows st.db).map
        (fun r => (r.id, fireTime now r.scheduled_utc)) := by
    show (pendingRows st.db).foldl _ st.timers = _
    rw [h0, foldl_schedule_job now (pendingRows st.db) []
          (fun r _ p hp => absurd hp (List.not_mem_nil p)) hpnd,
        List.nil_append]
  refine ⟨heq, hperm, List.sorted_insertionSort _ _, ?_, ?_⟩
  · rw [heq, List.length_map]
    exact hperm.length_eq
  · intro p hp
    rw [heq] at hp
    obtain ⟨r, hr, hfr⟩ := List.mem_map.mp hp
    have hrf : r ∈ st.db.rows.filter (fun x => x.status = Status.scheduled) :=
      hperm.mem_iff.mp hr
    refine ⟨r, List.mem_of_mem_filter hrf,
            by simpa using List.of_mem_filter hrf, hfr.symm, ?_, ?_, ?_⟩
    · rw [← hfr]
      show r.scheduled_utc ≤ fireTime now r.scheduled_utc
      unfold fireTime
      by_cases hlt : now < r.scheduled_utc
      · rw [if_pos hlt]
      · rw [if_neg hlt]
        omega
    · rw [← hfr]
      show now < fireTime now r.scheduled_utc
      unfold fireTime
      by_cases hlt : now < r.scheduled_utc
      · rw [if_pos hlt]
        exact hlt
      · rw [if_neg hlt]
        omega
    · intro hpast
      rw [← hfr]
      show fireTime now r.scheduled_utc = now + 5
      unfold fireTime
      rw [if_neg (by omega)]

/-- Witness for C7 (amended) at a concrete state: rebuilding from the
one-row database with `now = 100` (the row is due exactly now) arms its job
per the fire-time formula. -/
theorem load_and_schedule_all_contract_witness :
    (load_and_schedule_all { db := dbHi, timers := [] } 100).timers =
      (pendingRows dbHi).map (fun r => (r.id, fireTime 100 r.scheduled_utc)) :=
  (load_and_schedule_all_contract { db := dbHi, timers := [] } 100 (by decide)
    rfl).1

/-- C8 counterexample: `schedule_job` (Scheduler.Add) called with the past
fire time `0` while `now = 100` arms the job at exactly `0` — not at a
short fixed delay after `now`; no past-time adjustment happens in `Add`. -/
theorem schedule_job_no_delay_counterexample :
    schedule_job [] 1 0 = [(1, 0)] ∧
    lookupTimer (schedule_job [] 1 0) 1 = some 0 ∧
    ¬ ((100 : Int) < 0) ∧ ¬ ((100 : Int) + 5 ≤ 0) := by decide

/-- C8 (amended): `schedule_job` replaces any existing job for the same id
and arms the one-shot job at exactly the requested `run_time_utc`, past or
not; the short fixed delay for past-due times is applied only by its caller
`load_and_schedule_all`, not by `Add` itself (and the create path calls
`Add` with the raw scheduled instant). -/
theorem schedule_job_exact (ts : Timers) (tid : Nat) (t : Int) :
    lookupTimer (schedule_job ts tid t) tid = some t ∧
    (∀ j, j ≠ tid →
        lookupTimer (schedule_job ts tid t) j = lookupTimer ts j) ∧
    ((schedule_job ts tid t).filter (fun p => p.1 = tid)).length = 1 := by
  refine ⟨lookupTimer_schedule_job_self ts tid t,
          fun j hj => lookupTimer_schedule_job_other ts tid j t hj, ?_⟩
  unfold schedule_job
  rw [List.filter_append]
  have h1 : List.filter (fun p : Nat × Int => p.1 = tid)
      (List.filter (fun p => p.1 ≠ tid) ts) = [] := by
    rw [List.filter_filter, List.filter_eq_nil_iff]
    intro p hp
    simp
  rw [h1]
  simp

/-- Witness for C8 (amended): re-arming id 1 of a two-job table at time 0
replaces its job and leaves id 2's job alone. -/
theorem schedule_job_exact_witness :
    lookupTimer (schedule_job [(1, 100), (2, 7)] 1 0) 1 = some 0 ∧
    lookupTimer (schedule_job [(1, 100), (2, 7)] 1 0) 2 = some 7 :=
  ⟨(schedule_job_exact [(1, 100), (2, 7)] 1 0).1,
   (schedule_job_exact [(1, 100), (2, 7)] 1 0).2.1 2 (by decide)⟩

end TwitterApp
